import Mathlib

/-
  Verification of the conversation-context lifecycle of the AICHATBOT
  repository (src/Chatbot.py, class ChatbotApp).

  The shallow embedding models:
  - the context buffer `chat_history_ids` as `Option (List Token)`
    (`None` in the source is `none`; a present tensor is `some` of its
    token-id row);
  - the truncation step at lines 174-175, including Python's semantics
    for `-self.max_history_length//2` (unary minus binds tighter than
    `//`, and `//` is floor division) and for negative-start slices;
  - `send_message` (lines 131-180) as a pure function from an
    environment of external collaborators (tokenizer encode/decode and
    the generation invoker, each of which may fail, modelled by
    `Except String`) and the current history to a `TurnResult` holding
    the new history, the (sender, message) pairs emitted to the chat
    display, and the generate calls performed;
  - `update_chat` (lines 182-211) as a partial lookup in the `tags`
    dictionary followed by the two inserts.
-/

namespace Chatbot

/-- Token ids handed around by the tokenizer and the model. -/
abbrev Token := ℕ

/-- Python floor division `a // b`. -/
def pyFloorDiv (a b : ℤ) : ℤ := Int.fdiv a b

/-- Python slice `xs[k:]` for an arbitrary integer index `k`:
a negative start counts from the end (clamped at the front),
a nonnegative start drops that many elements. -/
def pySliceFrom (k : ℤ) (xs : List Token) : List Token :=
  if k < 0 then xs.drop (xs.length - (-k).toNat) else xs.drop k.toNat

/-- Line 70: `self.max_history_length = 1024`. -/
def max_history_length : ℕ := 1024

/-- Lines 174-175: if the history is longer than `max_length`, replace it
by `history[:, -max_length//2:]`; otherwise leave it alone.  The slice
start is `(-max_length)//2` in Python (unary minus binds tighter than
`//`), i.e. floor division of the negated bound. -/
def enforce_budget (max_length : ℕ) (buf : List Token) : List Token :=
  if buf.length > max_length then
    pySliceFrom (pyFloorDiv (-(max_length : ℤ)) 2) buf
  else buf

/-- Python str.strip(): remove leading and trailing whitespace. -/
def py_strip (s : String) : String :=
  String.mk (((s.data.dropWhile Char.isWhitespace).reverse.dropWhile
    Char.isWhitespace).reverse)

/-- The keyword arguments of the `self.model.generate` call
(lines 155-161). Temperature and repetition penalty are modelled as
rationals. -/
structure GenConfig where
  max_length : ℕ
  pad_token_id : ℕ
  temperature : ℚ
  repetition_penalty : ℚ
  deriving DecidableEq

/-- The external collaborators of one session: the tokenizer adapter
(`encode`, `decode`, its end-of-turn token in text and id form) and the
generation invoker (`generate`).  Each fallible operation returns
`Except String`, the error text standing for the raised exception. -/
structure Env where
  eos_token : String
  eos_token_id : ℕ
  encode : String → Except String (List Token)
  generate : GenConfig → List Token → Except String (List Token)
  decode : List Token → Except String String

/-- Lines 149-152: the generation input is the prior history
concatenated with the newly encoded tokens when history exists,
and the new tokens alone otherwise. -/
def input_ids_of (hist : Option (List Token)) (new_input : List Token) :
    List Token :=
  match hist with
  | some h => h ++ new_input
  | none => new_input

/-- The observable outcome of one `send_message` call: the context
buffer afterwards, the (sender, message) pairs passed to `update_chat`
in order, and the generate invocations performed (configuration and
input tokens). -/
structure TurnResult where
  state : Option (List Token)
  emitted : List (String × String)
  genCalls : List (GenConfig × List Token)
  deriving DecidableEq

/-- Lines 131-180, `ChatbotApp.send_message`, as a pure function.
Blank input (after strip) returns immediately with no effect.
Otherwise the user echo is emitted, the turn is encoded with the
end-of-turn token appended, concatenated onto the history, generated
from with the fixed configuration, and the suffix past the input
length is decoded; on success the history becomes the full response
truncated by `enforce_budget`, on any failure the history is left as
it was and a System error message is emitted. -/
def send_message (env : Env) (hist : Option (List Token)) (raw : String) :
    TurnResult :=
  let user_msg := py_strip raw
  if user_msg = "" then
    ⟨hist, [], []⟩
  else
    match env.encode (user_msg ++ env.eos_token) with
    | .error e => ⟨hist, [("You", user_msg), ("System", "Error: " ++ e)], []⟩
    | .ok new_input =>
      let input_ids := input_ids_of hist new_input
      let cfg : GenConfig :=
        ⟨max_history_length, env.eos_token_id, 7/10, 12/10⟩
      match env.generate cfg input_ids with
      | .error e =>
          ⟨hist, [("You", user_msg), ("System", "Error: " ++ e)],
           [(cfg, input_ids)]⟩
      | .ok response =>
        let response_start := input_ids.length
        match env.decode (response.drop response_start) with
        | .error e =>
            ⟨hist, [("You", user_msg), ("System", "Error: " ++ e)],
             [(cfg, input_ids)]⟩
        | .ok bot_response =>
            ⟨some (enforce_budget max_history_length response),
             [("You", user_msg), ("AI", bot_response)],
             [(cfg, input_ids)]⟩

/-- The successive context-buffer states over a list of raw inputs,
one entry per submitted turn, starting from the given history. -/
def session_states (env : Env) :
    Option (List Token) → List String → List (Option (List Token))
  | _, [] => []
  | hist, raw :: rest =>
    let s := (send_message env hist raw).state
    s :: session_states env s rest

/-- Lines 184-188: the sender-label styling dictionary of
`update_chat`. -/
def tags : List (String × String × String) :=
  [("You", "you", "#2c3e50"), ("AI", "ai", "#2980b9"),
   ("System", "sys", "#e74c3c")]

/-- Lines 182-211, `ChatbotApp.update_chat`: the first insert evaluates
`tags[sender][0]`, so an unknown sender raises KeyError (`none`) before
anything is inserted; a known sender inserts the label styled with its
tag and then the message styled with the plain tag. -/
def update_chat (sender message : String) :
    Option (List (String × String)) :=
  match tags.lookup sender with
  | none => none
  | some tv => some [(sender ++ ": ", tv.1), (message ++ "\n\n", "msg")]

/-- Floor division of a negated natural number by two is the negated
rounding-up half. -/
lemma pyFloorDiv_neg_two (m : ℕ) :
    pyFloorDiv (-(m : ℤ)) 2 = -(((m + 1) / 2 : ℕ) : ℤ) := by
  unfold pyFloorDiv
  rw [Int.fdiv_eq_ediv _ (by norm_num)]
  omega

/-- Characterization of the truncation branch for a positive bound:
the buffer keeps its last `(max_length + 1) / 2` tokens. -/
lemma enforce_budget_of_gt (m : ℕ) (buf : List Token)
    (h1 : 1 ≤ m) (h2 : m < buf.length) :
    enforce_budget m buf = buf.drop (buf.length - (m + 1) / 2) := by
  unfold enforce_budget
  rw [if_pos h2, pyFloorDiv_neg_two]
  unfold pySliceFrom
  rw [if_pos (by omega : -(((m + 1) / 2 : ℕ) : ℤ) < 0)]
  congr 1
  omega

/-- Below or at the bound nothing changes. -/
lemma enforce_budget_of_le (m : ℕ) (buf : List Token)
    (h : buf.length ≤ m) : enforce_budget m buf = buf := by
  unfold enforce_budget
  rw [if_neg (by omega)]

/-- With a zero bound the slice start is `-0 // 2 = 0`, so the whole
buffer is kept. -/
lemma enforce_budget_zero (buf : List Token) :
    enforce_budget 0 buf = buf := by
  unfold enforce_budget
  split
  · rw [pyFloorDiv_neg_two]
    unfold pySliceFrom
    norm_num
  · rfl

/-- Length after a triggered truncation with a positive bound. -/
lemma enforce_budget_length_of_gt (m : ℕ) (buf : List Token)
    (h1 : 1 ≤ m) (h2 : m < buf.length) :
    (enforce_budget m buf).length = (m + 1) / 2 := by
  rw [enforce_budget_of_gt m buf h1 h2, List.length_drop]
  omega

/-- The truncation step never leaves more than the configured maximum. -/
lemma enforce_budget_length_le (buf : List Token) :
    (enforce_budget max_history_length buf).length ≤ max_history_length := by
  by_cases h : buf.length ≤ max_history_length
  · rw [enforce_budget_of_le _ _ h]; exact h
  · rw [enforce_budget_length_of_gt max_history_length buf
      (by norm_num [max_history_length]) (by omega)]
    norm_num [max_history_length]

/-- The truncation step leaves a nonempty buffer nonempty. -/
lemma enforce_budget_ne_nil (buf : List Token) (h : buf ≠ []) :
    enforce_budget max_history_length buf ≠ [] := by
  by_cases hl : buf.length ≤ max_history_length
  · rw [enforce_budget_of_le _ _ hl]; exact h
  · have hlen := enforce_budget_length_of_gt max_history_length buf
      (by norm_num [max_history_length]) (by omega)
    intro hc
    rw [hc] at hlen
    norm_num [max_history_length] at hlen

/-- Case analysis on the state after one `send_message` call: either the
history is left exactly as it was (blank input or any failure), or the
encode and generate steps succeeded and the history is the generated
response after budget enforcement. -/
lemma send_message_state_cases (env : Env) (hist : Option (List Token))
    (raw : String) :
    (send_message env hist raw).state = hist ∨
    ∃ n r, env.encode (py_strip raw ++ env.eos_token) = .ok n ∧
      env.generate ⟨max_history_length, env.eos_token_id, 7/10, 12/10⟩
        (input_ids_of hist n) = .ok r ∧
      (send_message env hist raw).state =
        some (enforce_budget max_history_length r) := by
  by_cases hraw : py_strip raw = ""
  · left; simp [send_message, hraw]
  · simp only [send_message, if_neg hraw]
    rcases he : env.encode (py_strip raw ++ env.eos_token) with e | n
    · left; rfl
    · rcases hg : env.generate
          ⟨max_history_length, env.eos_token_id, 7/10, 12/10⟩
          (input_ids_of hist n) with e | r
      · left; simp [hg]
      · rcases hd : env.decode (r.drop (input_ids_of hist n).length)
            with e | s
        · left; simp [hg, hd]
        · right; exact ⟨n, r, rfl, hg, by simp [hg, hd]⟩

/-- Whether the try-block of `send_message` raises: the encode, generate
or decode call fails before the history is committed. -/
def turn_raised (env : Env) (hist : Option (List Token)) (raw : String) :
    Bool :=
  match env.encode (py_strip raw ++ env.eos_token) with
  | .error _ => true
  | .ok n =>
    match env.generate ⟨max_history_length, env.eos_token_id, 7/10, 12/10⟩
        (input_ids_of hist n) with
    | .error _ => true
    | .ok r =>
      match env.decode (r.drop (input_ids_of hist n).length) with
      | .error _ => true
      | .ok _ => false

/-- The description of the exception the try-block of `send_message`
raises (the empty string when no step fails). -/
def turn_error (env : Env) (hist : Option (List Token)) (raw : String) :
    String :=
  match env.encode (py_strip raw ++ env.eos_token) with
  | .error e => e
  | .ok n =>
    match env.generate ⟨max_history_length, env.eos_token_id, 7/10, 12/10⟩
        (input_ids_of hist n) with
    | .error e => e
    | .ok r =>
      match env.decode (r.drop (input_ids_of hist n).length) with
      | .error e => e
      | .ok _ => ""

/-- All states reached by a session whose start satisfies the budget
bound satisfy the budget bound; the bound is maintained by the
truncation step alone. -/
lemma session_states_bounded (env : Env) (raws : List String) :
    ∀ hist : Option (List Token),
      (∀ l, hist = some l → l.length ≤ max_history_length) →
      ∀ s ∈ session_states env hist raws, ∀ l, s = some l →
        l.length ≤ max_history_length := by
  induction raws with
  | nil =>
    intro hist _ s hs
    simp [session_states] at hs
  | cons raw rest ih =>
    intro hist hinv s hs
    simp only [session_states, List.mem_cons] at hs
    have hnew : ∀ l, (send_message env hist raw).state = some l →
        l.length ≤ max_history_length := by
      intro l hl
      rcases send_message_state_cases env hist raw with h | ⟨n, r, _, _, h⟩
      · exact hinv l (h ▸ hl)
      · rw [h] at hl
        injection hl with hl2
        rw [← hl2]
        exact enforce_budget_length_le r
    rcases hs with rfl | hs
    · exact hnew
    · exact ih _ hnew s hs

/-- A well-behaved test environment: encoding always yields two tokens,
generation echoes its input and appends two new tokens, decoding always
succeeds. -/
def envGrow : Env :=
  ⟨"<eos>", 0,
   fun _ => .ok [1, 2],
   fun _ inp => .ok (inp ++ [7, 8]),
   fun _ => .ok "reply"⟩

/-- A test environment whose generation invoker always raises. -/
def envRaise : Env :=
  ⟨"<eos>", 0,
   fun _ => .ok [1],
   fun _ _ => .error "boom",
   fun _ => .ok "reply"⟩

/-- A test environment whose generation invoker respects the
`max_length` bound of its configuration. -/
def envBound : Env :=
  ⟨"<eos>", 0,
   fun _ => .ok [1, 2],
   fun cfg inp => .ok ((inp ++ [7, 8]).take cfg.max_length),
   fun _ => .ok "reply"⟩

/-- C1 counterexample: the claim says a buffer longer than `max_length`
keeps exactly its last `max_length / 2` tokens.  At `max_length = 3`
and buffer `[1,2,3,4]` the code computes the slice start as
`(-3) // 2 = -2` (Python floor division under the unary minus), so it
keeps the last two tokens `[3, 4]`, not the last `3 / 2 = 1` token
`[4]`. -/
theorem enforce_budget_floor_counterexample :
    enforce_budget 3 [1, 2, 3, 4] = [3, 4] ∧
    enforce_budget 3 [1, 2, 3, 4] ≠
      List.drop (4 - 3 / 2) [1, 2, 3, 4] ∧
    (enforce_budget 3 [1, 2, 3, 4]).length ≠ 3 / 2 := by
  decide

/-- C1 amended: for `1 ≤ max_length` and a buffer longer than
`max_length`, `enforce_budget` keeps exactly the last
`(max_length + 1) / 2` tokens (integer division rounding up, which is
`max_length / 2` for even bounds such as the configured 1024), hence
leaves length exactly `(max_length + 1) / 2`; a buffer at or below the
bound is unchanged. -/
theorem enforce_budget_halving (m : ℕ) (buf buf2 : List Token)
    (h1 : 1 ≤ m) (h2 : m < buf.length) (h3 : buf2.length ≤ m) :
    enforce_budget m buf = buf.drop (buf.length - (m + 1) / 2) ∧
    (enforce_budget m buf).length = (m + 1) / 2 ∧
    enforce_budget m buf2 = buf2 :=
  ⟨enforce_budget_of_gt m buf h1 h2,
   enforce_budget_length_of_gt m buf h1 h2,
   enforce_budget_of_le m buf2 h3⟩

/-- C1 amended, witnessed at the spec's own example: bound 10, buffer
of length 12, the last five tokens are kept; a length-3 buffer is left
alone. -/
theorem enforce_budget_halving_witness :
    enforce_budget 10 [1,2,3,4,5,6,7,8,9,10,11,12] =
      List.drop (12 - (10 + 1) / 2) [1,2,3,4,5,6,7,8,9,10,11,12] ∧
    (enforce_budget 10 [1,2,3,4,5,6,7,8,9,10,11,12]).length =
      (10 + 1) / 2 ∧
    enforce_budget 10 [1,2,3] = [1,2,3] :=
  enforce_budget_halving 10 [1,2,3,4,5,6,7,8,9,10,11,12] [1,2,3]
    (by decide) (by decide) (by decide)

/-- C9: the truncation step is idempotent for every bound: a second
application with the same `max_length` changes nothing, because one
application leaves the length at most `(max_length + 1) / 2 ≤
max_length` (and a zero bound never changes the buffer at all). -/
theorem enforce_budget_idempotent (m : ℕ) (buf : List Token) :
    enforce_budget m (enforce_budget m buf) = enforce_budget m buf := by
  rcases Nat.eq_zero_or_pos m with rfl | hm
  · rw [enforce_budget_zero, enforce_budget_zero]
  · by_cases h : buf.length ≤ m
    · rw [enforce_budget_of_le m buf h, enforce_budget_of_le m buf h]
    · apply enforce_budget_of_le
      rw [enforce_budget_length_of_gt m buf hm (by omega)]
      omega

/-- C6: input that strips to blank is a no-op: the history is kept, no
message is emitted, the generation invoker is not called. -/
theorem send_message_noop_on_blank (env : Env) (hist : Option (List Token))
    (raw : String) (h : py_strip raw = "") :
    send_message env hist raw = ⟨hist, [], []⟩ := by
  simp [send_message, h]

/-- C6 witnessed on whitespace-only input. -/
theorem send_message_noop_on_blank_witness :
    py_strip "  \t " = "" ∧
    send_message envGrow (some [7]) "  \t " = ⟨some [7], [], []⟩ :=
  ⟨by decide,
   send_message_noop_on_blank envGrow (some [7]) "  \t " (by decide)⟩

/-- C10: `update_chat` succeeds exactly for the senders "You", "AI" and
"System"; any other sender fails the `tags[sender]` lookup (KeyError)
before the first insert, so nothing is rendered for it. -/
theorem update_chat_known_labels (sender message : String) :
    (update_chat sender message).isSome ↔
      sender = "You" ∨ sender = "AI" ∨ sender = "System" := by
  by_cases h1 : sender = "You"
  · simp [update_chat, tags, List.lookup, h1]
  · by_cases h2 : sender = "AI"
    · simp [update_chat, tags, List.lookup, h1, h2]
    · by_cases h3 : sender = "System"
      · simp [update_chat, tags, List.lookup, h1, h2, h3]
      · have b1 : (sender == "You") = false := beq_eq_false_iff_ne.mpr h1
        have b2 : (sender == "AI") = false := beq_eq_false_iff_ne.mpr h2
        have b3 : (sender == "System") = false := beq_eq_false_iff_ne.mpr h3
        simp [update_chat, tags, List.lookup, b1, b2, b3, h1, h2, h3]

/-- C2: starting from the empty context, after every submitted turn the
context buffer holds at most `max_history_length = 1024` tokens,
assuming the generation invoker respects the `max_length` of its
configuration.  (The proof shows the invariant is in fact maintained by
the truncation step alone: a failed turn keeps the previous state and a
successful turn commits the response only after `enforce_budget`.) -/
theorem context_budget_invariant (env : Env)
    (hgen : ∀ cfg inp r, env.generate cfg inp = .ok r →
      r.length ≤ cfg.max_length)
    (raws : List String) (s : Option (List Token))
    (hs : s ∈ session_states env none raws)
    (l : List Token) (hl : s = some l) :
    l.length ≤ max_history_length := by
  have hstart : ∀ l0 : List Token, (none : Option (List Token)) = some l0 →
      l0.length ≤ max_history_length := by
    intro l0 h
    cases h
  exact session_states_bounded env raws none hstart s hs l hl

/-- C2 witnessed on a one-turn session against a bounded invoker. -/
theorem context_budget_invariant_witness :
    (some [1, 2, 7, 8] : Option (List Token)) ∈
      session_states envBound none ["hi"] ∧
    ([1, 2, 7, 8] : List Token).length ≤ max_history_length :=
  ⟨by decide,
   context_budget_invariant envBound
     (fun cfg inp r h => by
       injection h with h2
       rw [← h2, List.length_take]
       omega)
     ["hi"] (some [1, 2, 7, 8]) (by decide) [1, 2, 7, 8] rfl⟩

/-- C3: if the encode, generate or decode step raises, the context
buffer after the turn is identical to the buffer before it, and the
turn emits exactly the user echo followed by one System message holding
the failure description; `send_message` still returns a result, so the
session continues. -/
theorem failure_isolation (env : Env) (hist : Option (List Token))
    (raw : String) (hraw : py_strip raw ≠ "")
    (hfail : turn_raised env hist raw = true) :
    (send_message env hist raw).state = hist ∧
    (send_message env hist raw).emitted =
      [("You", py_strip raw),
       ("System", "Error: " ++ turn_error env hist raw)] := by
  simp only [send_message, turn_raised, turn_error, if_neg hraw] at *
  rcases he : env.encode (py_strip raw ++ env.eos_token) with e | n
  · exact ⟨rfl, rfl⟩
  · rw [he] at hfail
    rcases hg : env.generate
        ⟨max_history_length, env.eos_token_id, 7/10, 12/10⟩
        (input_ids_of hist n) with e | r
    · simp only [hg] at hfail ⊢
      refine ⟨?_, ?_⟩ <;> trivial
    · simp only [hg] at hfail ⊢
      rcases hd : env.decode (r.drop (input_ids_of hist n).length)
          with e | s
      · refine ⟨?_, ?_⟩ <;> trivial
      · simp only [hd] at hfail
        exact Bool.noConfusion hfail

/-- C3 witnessed on an invoker that raises. -/
theorem failure_isolation_witness :
    (py_strip "hi" ≠ "" ∧ turn_raised envRaise (some [3]) "hi" = true) ∧
    (send_message envRaise (some [3]) "hi").state = some [3] ∧
    (send_message envRaise (some [3]) "hi").emitted =
      [("You", py_strip "hi"),
       ("System", "Error: " ++ turn_error envRaise (some [3]) "hi")] :=
  ⟨⟨by decide, by decide⟩,
   failure_isolation envRaise (some [3]) "hi" (by decide) (by decide)⟩

/-- C4: for a non-blank turn whose encoding succeeds, the single
generate call receives exactly the encoded user turn when the history
is absent, and the prior history concatenated with the encoded user
turn when it is present. -/
theorem generation_input_continuity (env : Env) (raw : String)
    (n hbuf : List Token) (hraw : py_strip raw ≠ "")
    (henc : env.encode (py_strip raw ++ env.eos_token) = .ok n) :
    (send_message env none raw).genCalls.map Prod.snd = [n] ∧
    (send_message env (some hbuf) raw).genCalls.map Prod.snd =
      [hbuf ++ n] := by
  constructor
  · simp only [send_message, if_neg hraw, henc]
    split
    · simp [input_ids_of]
    · split <;> simp [input_ids_of]
  · simp only [send_message, if_neg hraw, henc]
    split
    · simp [input_ids_of]
    · split <;> simp [input_ids_of]

/-- C4 witnessed: first turn from the empty context and a follow-up
turn from history `[9]`. -/
theorem generation_input_continuity_witness :
    (py_strip "hi" ≠ "" ∧
     envGrow.encode (py_strip "hi" ++ envGrow.eos_token) = .ok [1, 2]) ∧
    (send_message envGrow none "hi").genCalls.map Prod.snd = [[1, 2]] ∧
    (send_message envGrow (some [9]) "hi").genCalls.map Prod.snd =
      [[9] ++ [1, 2]] :=
  ⟨⟨by decide, rfl⟩,
   generation_input_continuity envGrow "hi" [1, 2] [9] (by decide) rfl⟩

/-- C5: when the invoker returns its input followed by `k` fresh
tokens, the decode step receives exactly those trailing `k` tokens
(the suffix from index `response_start` on) and the emitted AI reply
is their decoding. -/
theorem reply_slice_correct (env : Env) (hist : Option (List Token))
    (raw : String) (n tail : List Token) (s : String)
    (hraw : py_strip raw ≠ "")
    (henc : env.encode (py_strip raw ++ env.eos_token) = .ok n)
    (hgen : env.generate
        ⟨max_history_length, env.eos_token_id, 7/10, 12/10⟩
        (input_ids_of hist n) = .ok (input_ids_of hist n ++ tail))
    (hdec : env.decode tail = .ok s) :
    (input_ids_of hist n ++ tail).drop (input_ids_of hist n).length =
      tail ∧
    (send_message env hist raw).emitted =
      [("You", py_strip raw), ("AI", s)] := by
  have hdrop : (input_ids_of hist n ++ tail).drop
      (input_ids_of hist n).length = tail := List.drop_left _ _
  refine ⟨hdrop, ?_⟩
  simp only [send_message, if_neg hraw, henc, hgen, hdrop, hdec]

/-- C5 witnessed at the spec's shape: input `[9,1,2]`, continuation
`[7,8]`. -/
theorem reply_slice_correct_witness :
    (py_strip "hi" ≠ "" ∧
     envGrow.encode (py_strip "hi" ++ envGrow.eos_token) = .ok [1, 2] ∧
     envGrow.generate
        ⟨max_history_length, envGrow.eos_token_id, 7/10, 12/10⟩
        (input_ids_of (some [9]) [1, 2]) =
       .ok (input_ids_of (some [9]) [1, 2] ++ [7, 8]) ∧
     envGrow.decode [7, 8] = .ok "reply") ∧
    (input_ids_of (some [9]) [1, 2] ++ [7, 8]).drop
        (input_ids_of (some [9]) [1, 2]).length = [7, 8] ∧
    (send_message envGrow (some [9]) "hi").emitted =
      [("You", py_strip "hi"), ("AI", "reply")] :=
  ⟨⟨by decide, rfl, rfl, rfl⟩,
   reply_slice_correct envGrow (some [9]) "hi" [1, 2] [7, 8] "reply"
     (by decide) rfl rfl rfl⟩

/-- C7: once the context holds at least one token, any turn, successful
or failed, leaves it holding at least one token, assuming the invoker
returns a sequence at least as long as its input; the buffer never
becomes absent and never becomes empty. -/
theorem active_never_empties (env : Env) (l : List Token) (raw : String)
    (hl : l ≠ [])
    (hgen : ∀ cfg inp r, env.generate cfg inp = .ok r →
      inp.length ≤ r.length) :
    (send_message env (some l) raw).state ≠ none ∧
    (send_message env (some l) raw).state ≠ some [] := by
  rcases send_message_state_cases env (some l) raw with h | ⟨n, r, _, hg, h⟩
  · rw [h]
    exact ⟨by simp, by simp [hl]⟩
  · rw [h]
    have hrlen := hgen _ _ _ hg
    have hr : r ≠ [] := by
      intro hc
      rw [hc] at hrlen
      simp only [input_ids_of, List.length_append, List.length_nil]
        at hrlen
      have := List.length_pos.mpr hl
      omega
    exact ⟨by simp, by simp [enforce_budget_ne_nil r hr]⟩

/-- C7 witnessed against a length-extending invoker. -/
theorem active_never_empties_witness :
    ([3] : List Token) ≠ [] ∧
    (send_message envGrow (some [3]) "hi").state ≠ none ∧
    (send_message envGrow (some [3]) "hi").state ≠ some [] :=
  ⟨by decide,
   active_never_empties envGrow [3] "hi" (by decide)
     (fun cfg inp r h => by
       injection h with h2
       rw [← h2, List.length_append]
       omega)⟩

/-- C8: every generate call performed by `send_message` carries the one
fixed configuration: `max_length` is the literal 1024 — the very
`max_history_length` constant used as the context budget —
`pad_token_id` is the tokenizer's `eos_token_id`, temperature is 0.7
and repetition penalty is 1.2. -/
theorem fixed_generation_config (env : Env) (hist : Option (List Token))
    (raw : String) (cfg : GenConfig) (inp : List Token)
    (hmem : (cfg, inp) ∈ (send_message env hist raw).genCalls) :
    cfg = ⟨1024, env.eos_token_id, 7/10, 12/10⟩ ∧
    cfg.max_length = max_history_length := by
  have hcfg : cfg = ⟨max_history_length, env.eos_token_id, 7/10, 12/10⟩ := by
    by_cases hraw : py_strip raw = ""
    · simp [send_message, hraw] at hmem
    · simp only [send_message, if_neg hraw] at hmem
      rcases he : env.encode (py_strip raw ++ env.eos_token) with e | n
      · rw [he] at hmem
        simp at hmem
      · rw [he] at hmem
        rcases hg : env.generate
            ⟨max_history_length, env.eos_token_id, 7/10, 12/10⟩
            (input_ids_of hist n) with e | r
        · simp only [hg] at hmem
          simp at hmem
          exact hmem.1
        · simp only [hg] at hmem
          rcases hd : env.decode (r.drop (input_ids_of hist n).length)
              with e | s
          · simp only [hd] at hmem
            simp at hmem
            exact hmem.1
          · simp only [hd] at hmem
            simp at hmem
            exact hmem.1
  exact ⟨hcfg, by rw [hcfg]⟩

/-- C8 witnessed on the generate call of a concrete first turn. -/
theorem fixed_generation_config_witness :
    ((⟨max_history_length, envGrow.eos_token_id, 7/10, 12/10⟩ : GenConfig),
        ([1, 2] : List Token)) ∈
      (send_message envGrow none "hi").genCalls ∧
    (⟨max_history_length, envGrow.eos_token_id, 7/10, 12/10⟩ : GenConfig) =
      ⟨1024, envGrow.eos_token_id, 7/10, 12/10⟩ ∧
    GenConfig.max_length
        ⟨max_history_length, envGrow.eos_token_id, 7/10, 12/10⟩ =
      max_history_length :=
  ⟨List.mem_singleton.mpr rfl,
   fixed_generation_config envGrow none "hi" _ _
     (List.mem_singleton.mpr rfl)⟩

end Chatbot
